import Mathlib

/-!
Shallow embedding of the bingo server (`src/server.js`).

Randomness is modelled by an explicit stream `stream : Nat → Nat` of raw draws
(`stream k` plays the role of the k-th value obtained from the runtime's random
source, reduced modulo the needed span exactly as `Math.floor(Math.random() * n)`
produces a value in `0..n-1`).  Unbounded `while` loops of the source are given
explicit fuel and return `Option`: `none` models the loop not having terminated
within the fuel, `some` carries the value the JavaScript loop would produce.
-/

namespace Bingo

/-- The traditional column ranges of `generateBingoCard`:
B 1–15, I 16–30, N 31–45, G 46–60, O 61–75. -/
def columnRanges : List (Nat × Nat) :=
  [(1, 15), (16, 30), (31, 45), (46, 60), (61, 75)]

/-- `Math.floor(numbersPerCard / numbersPerRow)` with `numbersPerRow = 5`. -/
def baseCount (size : Nat) : Nat := size / 5

/-- `numbersPerCard % numbersPerRow`. -/
def remCount (size : Nat) : Nat := size % 5

/-- The per-column target count computed by the first loop of
`generateBingoCard` (before the shortfall adjustment): the center column
(index 2) always gets the base count, the other columns get one extra number
while their position among the non-center columns is below the remainder. -/
def preCount (size col : Nat) : Nat :=
  if col = 2 then baseCount size
  else
    let positionInNonCenter := if col < 2 then col else col - 1
    if positionInNonCenter < remCount size then baseCount size + 1 else baseCount size

/-- `totalTarget` accumulated by the same loop. -/
def totalTarget (size : Nat) : Nat :=
  (List.range 5).foldl (fun acc col => acc + preCount size col) 0

/-- The final target counts, including the source's shortfall adjustment
`targetCounts[numbersPerRow - 1] += numbersPerCard - totalTarget` that fires
when `totalTarget !== numbersPerCard` (JavaScript arithmetic is signed, hence
`Int`). -/
def targetCounts (size : Nat) : List Int :=
  let pre : List Int := (List.range 5).map (fun col => (preCount size col : Int))
  if totalTarget size = size then pre
  else pre.set 4 (pre.getD 4 0 + ((size : Int) - (totalTarget size : Int)))

/-- The `while (numbers.length < count)` rejection-sampling loop of
`generateBingoCard`: draw `stream k % (hi - lo + 1) + lo`, keep it if unseen.
Returns the produced list together with the next unused stream index. -/
def sampleColumn (stream : Nat → Nat) (lo hi : Nat) (count : Int) :
    Nat → Nat → List Nat → Option (List Nat × Nat)
  | 0, k, acc => if (acc.length : Int) < count then none else some (acc, k)
  | fuel + 1, k, acc =>
    if (acc.length : Int) < count then
      let num := stream k % (hi - lo + 1) + lo
      if num ∈ acc then sampleColumn stream lo hi count fuel (k + 1) acc
      else sampleColumn stream lo hi count fuel (k + 1) (acc ++ [num])
    else some (acc, k)

/-- The per-column generation loop: sample each column, sort it ascending. -/
def genColumns (stream : Nat → Nat) (fuel : Nat) :
    List ((Nat × Nat) × Int) → Nat → Option (List (List Nat) × Nat)
  | [], k => some ([], k)
  | (range, count) :: rest, k =>
    match sampleColumn stream range.1 range.2 count fuel k [] with
    | none => none
    | some (nums, k1) =>
      match genColumns stream fuel rest k1 with
      | none => none
      | some (cols, k2) => some (List.insertionSort (fun a b => a ≤ b) nums :: cols, k2)

/-- The inner `for (row …)` loop filling one column of the matrix: the cell at
`centerRow` of the center column is the free cell (`none`); otherwise the next
number of the column is consumed, `none` once the column's supply is exhausted. -/
def buildColAux (nums : List Nat) (centerRow : Nat) (isCenter : Bool) :
    (row idx fuel : Nat) → List (Option Nat)
  | _, _, 0 => []
  | row, idx, fuel + 1 =>
    if isCenter ∧ row = centerRow then
      none :: buildColAux nums centerRow isCenter (row + 1) idx fuel
    else
      match nums[idx]? with
      | some v => some v :: buildColAux nums centerRow isCenter (row + 1) (idx + 1) fuel
      | none => none :: buildColAux nums centerRow isCenter (row + 1) idx fuel

/-- The record returned by `generateBingoCard`. -/
structure CardData where
  numbers : List Nat
  grid : List (Option Nat)
  numbersPerRow : Nat
  numbersPerCol : Nat
  centerRow : Nat
  centerCol : Nat
deriving DecidableEq, Repr

/-- `generateBingoCard(numbersPerCard)` of `src/server.js`. -/
def generateBingoCard (stream : Nat → Nat) (fuel : Nat) (numbersPerCard : Nat) :
    Option CardData :=
  match genColumns stream fuel (columnRanges.zip (targetCounts numbersPerCard)) 0 with
  | none => none
  | some (columnNumbers, _) =>
    let allNumbers := List.insertionSort (fun a b => a ≤ b) columnNumbers.flatten
    let totalSpaces := numbersPerCard + 1
    let numbersPerCol := (totalSpaces + 5 - 1) / 5
    let centerRow := numbersPerCol / 2
    let matrix := (List.range 5).map (fun col =>
      buildColAux (columnNumbers.getD col []) centerRow (col == 2) 0 0 numbersPerCol)
    let grid := (List.range numbersPerCol).flatMap (fun row =>
      (List.range 5).map (fun col => (matrix.getD col []).getD row none))
    some ⟨allNumbers, grid, 5, numbersPerCol, centerRow, 2⟩

/-- A participant entry as stored in `room.participants[userId]`. -/
structure Participant where
  id : String
  name : String
  card : List Nat
  cardGrid : List (Option Nat)
  numbersPerRow : Nat
  numbersPerCol : Nat
  centerRow : Nat
  centerCol : Nat
  markedNumbers : List Nat
  joinedAt : Nat
deriving DecidableEq, Repr

/-- A room entry as stored in the `rooms` map.  `lastDrawnAt` is `none` both
for the field never having been set and for the explicit `null` written by
`resetDraw`. -/
structure Room where
  id : String
  hostName : String
  numbersPerCard : Nat
  drawnNumbers : List Nat
  participants : List (String × Participant)
  createdAt : Nat
  lastDrawnAt : Option Nat
deriving DecidableEq, Repr

/-- The `users` map entry: `socketId -> { userId, roomId, isHost }`. -/
structure Session where
  userId : String
  roomId : String
  isHost : Bool
deriving DecidableEq, Repr

/-- The process-wide in-memory state: the `rooms` and `users` maps, as
association lists keyed by room id / socket id. -/
structure ServerState where
  rooms : List (String × Room)
  users : List (String × Session)
deriving DecidableEq, Repr

/-- `Map.get` / property read on a key-unique association list. -/
def getA {α : Type} : List (String × α) → String → Option α
  | [], _ => none
  | (k1, v) :: rest, k => if k1 = k then some v else getA rest k

/-- `Map.set` / property write: replaces the entry when the key is present,
appends it otherwise. -/
def setA {α : Type} : List (String × α) → String → α → List (String × α)
  | [], k, v => [(k, v)]
  | (k1, v1) :: rest, k, v =>
    if k1 = k then (k, v) :: rest else (k1, v1) :: setA rest k v

/-- `Map.delete`. -/
def eraseA {α : Type} : List (String × α) → String → List (String × α)
  | [], _ => []
  | (k1, v1) :: rest, k => if k1 = k then rest else (k1, v1) :: eraseA rest k

/-- Events the server emits over the socket layer. -/
inductive EventOut where
  | errorMsg (message : String)
  | roomJoined (room : Room) (isHost : Bool) (participant : Option Participant)
  | participantJoined (participant : Participant) (participantCount : Nat)
  | numberDrawn (number : Nat) (drawnNumbers : List Nat) (totalDrawn : Nat)
  | numberMarked (number : Nat) (markedNumbers : List Nat) (hasBingo : Bool)
  | bingo (participantId : String) (participantName : String)
  | drawReset (room : Room)
  | roomState (room : Room) (isHost : Bool) (participant : Option Participant)
deriving DecidableEq, Repr

/-- `socket.emit` (to one connection) vs `io.to(roomId).emit` (to the room). -/
inductive Emit where
  | unicast (socketId : String) (event : EventOut)
  | broadcast (roomId : String) (event : EventOut)
deriving DecidableEq, Repr

def roomNotFoundMsg : String := "Sala não encontrada"
def participantNotFoundRoomMsg : String := "Participante não encontrado na sala"
def drawAuthMsg : String := "Apenas o host pode sortear números"
def exhaustedMsg : String := "Todos os números já foram sorteados"
def participantNotFoundMsg : String := "Participante não encontrado"
def notOnCardMsg : String := "Número não está na sua cartela"
def resetAuthMsg : String := "Apenas o host pode reiniciar o sorteio"
def hostNameRequiredMsg : String := "Nome do host é obrigatório"
def participantNameRequiredMsg : String := "Nome do participante é obrigatório"

/-- The `'joinAsHost'` socket handler. -/
def joinAsHostH (st : ServerState) (sid roomId userId : String) :
    ServerState × List Emit :=
  match getA st.rooms roomId with
  | none => (st, [.unicast sid (.errorMsg roomNotFoundMsg)])
  | some room =>
    ({ st with users := setA st.users sid ⟨userId, roomId, true⟩ },
     [.unicast sid (.roomJoined room true none)])

/-- The `'joinAsParticipant'` socket handler. -/
def joinAsParticipantH (st : ServerState) (sid roomId userId : String) :
    ServerState × List Emit :=
  match getA st.rooms roomId with
  | none => (st, [.unicast sid (.errorMsg roomNotFoundMsg)])
  | some room =>
    match getA room.participants userId with
    | none => (st, [.unicast sid (.errorMsg participantNotFoundRoomMsg)])
    | some participant =>
      ({ st with users := setA st.users sid ⟨userId, roomId, false⟩ },
       [.unicast sid (.roomJoined room false (some participant))])

/-- The `do { number = … } while (drawnNumbers.includes(number))` loop of the
`'drawNumber'` handler, with explicit fuel. -/
def drawLoop (drawn : List Nat) (stream : Nat → Nat) : Nat → Nat → Option Nat
  | 0, _ => none
  | fuel + 1, k =>
    let number := stream k % 75 + 1
    if number ∈ drawn then drawLoop drawn stream fuel (k + 1)
    else some number

/-- The `'drawNumber'` socket handler. -/
def drawNumberH (st : ServerState) (sid roomId : String) (stream : Nat → Nat)
    (fuel now : Nat) : Option (ServerState × List Emit) :=
  match getA st.users sid with
  | none => some (st, [.unicast sid (.errorMsg drawAuthMsg)])
  | some userInfo =>
    if userInfo.isHost then
      match getA st.rooms roomId with
      | none => some (st, [.unicast sid (.errorMsg roomNotFoundMsg)])
      | some room =>
        if 75 ≤ room.drawnNumbers.length then
          some (st, [.unicast sid (.errorMsg exhaustedMsg)])
        else
          match drawLoop room.drawnNumbers stream fuel 0 with
          | none => none
          | some number =>
            let newDrawn :=
              List.insertionSort (fun a b => a ≤ b) (room.drawnNumbers ++ [number])
            let room1 := { room with drawnNumbers := newDrawn, lastDrawnAt := some now }
            some ({ st with rooms := setA st.rooms roomId room1 },
              [.broadcast roomId (.numberDrawn number newDrawn newDrawn.length)])
    else some (st, [.unicast sid (.errorMsg drawAuthMsg)])

/-- The toggle of the `'markNumber'` handler: `indexOf` followed by
`splice(index, 1)` removes the first occurrence when present, `push` appends
otherwise. -/
def toggle (marked : List Nat) (number : Nat) : List Nat :=
  if number ∈ marked then marked.erase number else marked ++ [number]

/-- The `'markNumber'` socket handler. -/
def markNumberH (st : ServerState) (sid roomId userId : String) (number : Nat) :
    ServerState × List Emit :=
  match getA st.rooms roomId with
  | none => (st, [.unicast sid (.errorMsg roomNotFoundMsg)])
  | some room =>
    match getA room.participants userId with
    | none => (st, [.unicast sid (.errorMsg participantNotFoundMsg)])
    | some participant =>
      if number ∈ participant.card then
        let newMarked := toggle participant.markedNumbers number
        let participant1 := { participant with markedNumbers := newMarked }
        let room1 := { room with participants := setA room.participants userId participant1 }
        let hasBingo := newMarked.length == participant.card.length
        ({ st with rooms := setA st.rooms roomId room1 },
         .unicast sid (.numberMarked number newMarked hasBingo) ::
           (if hasBingo then [.broadcast roomId (.bingo userId participant.name)] else []))
      else (st, [.unicast sid (.errorMsg notOnCardMsg)])

/-- The `'resetDraw'` socket handler. -/
def resetDrawH (st : ServerState) (sid roomId : String) : ServerState × List Emit :=
  match getA st.users sid with
  | none => (st, [.unicast sid (.errorMsg resetAuthMsg)])
  | some userInfo =>
    if userInfo.isHost then
      match getA st.rooms roomId with
      | none => (st, [.unicast sid (.errorMsg roomNotFoundMsg)])
      | some room =>
        let room1 := { room with
          drawnNumbers := [],
          lastDrawnAt := none,
          participants := room.participants.map (fun kp => (kp.1, { kp.2 with markedNumbers := [] })) }
        ({ st with rooms := setA st.rooms roomId room1 },
         [.broadcast roomId (.drawReset room1)])
    else (st, [.unicast sid (.errorMsg resetAuthMsg)])

/-- The `'getRoomState'` socket handler. -/
def getRoomStateH (st : ServerState) (sid roomId : String) : ServerState × List Emit :=
  match getA st.rooms roomId with
  | none => (st, [.unicast sid (.errorMsg roomNotFoundMsg)])
  | some room =>
    let userInfo := getA st.users sid
    let isHost := match userInfo with
      | some u => u.isHost
      | none => false
    let participant := match userInfo with
      | some u => if u.isHost then none else getA room.participants u.userId
      | none => none
    (st, [.unicast sid (.roomState room isHost participant)])

/-- The `'disconnect'` socket handler. -/
def disconnectH (st : ServerState) (sid : String) : ServerState × List Emit :=
  (⟨st.rooms, eraseA st.users sid⟩, [])

/-- The outcome of one inbound operation: the new state, the socket emissions,
and (for the REST endpoints) the error body of an HTTP error response when the
request was rejected. -/
structure Outcome where
  state : ServerState
  emits : List Emit
  restError : Option String
deriving Repr

/-- `POST /api/rooms` (room creation).  `roomId` stands for the fresh id the
server generates; a falsy `hostName` is modelled by the empty string. -/
def createRoomRest (st : ServerState) (roomId hostName : String)
    (numbersPerCard now : Nat) : Outcome :=
  if hostName = "" then ⟨st, [], some hostNameRequiredMsg⟩
  else
    ⟨{ st with rooms := setA st.rooms roomId ⟨roomId, hostName, numbersPerCard, [], [], now, none⟩ },
     [], none⟩

/-- `POST /api/rooms/:roomId/join`.  `userId` stands for the fresh participant
id the server generates. -/
def joinRoomRest (st : ServerState) (roomId userId participantName : String)
    (stream : Nat → Nat) (fuel now : Nat) : Option Outcome :=
  if participantName = "" then some ⟨st, [], some participantNameRequiredMsg⟩
  else
    match getA st.rooms roomId with
    | none => some ⟨st, [], some roomNotFoundMsg⟩
    | some room =>
      match generateBingoCard stream fuel room.numbersPerCard with
      | none => none
      | some cardData =>
        let participant : Participant :=
          ⟨userId, participantName, cardData.numbers, cardData.grid,
           cardData.numbersPerRow, cardData.numbersPerCol,
           cardData.centerRow, cardData.centerCol, [], now⟩
        let room1 := { room with participants := setA room.participants userId participant }
        some ⟨{ st with rooms := setA st.rooms roomId room1 },
              [.broadcast roomId (.participantJoined participant room1.participants.length)],
              none⟩

/-- One inbound operation, with all server-generated data (fresh ids, clock
readings, random draws) passed explicitly. -/
inductive Op where
  | restCreate (roomId hostName : String) (numbersPerCard now : Nat)
  | restJoin (roomId userId participantName : String) (stream : Nat → Nat) (fuel now : Nat)
  | joinAsHost (sid roomId userId : String)
  | joinAsParticipant (sid roomId userId : String)
  | drawNumber (sid roomId : String) (stream : Nat → Nat) (fuel now : Nat)
  | markNumber (sid roomId userId : String) (number : Nat)
  | resetDraw (sid roomId : String)
  | getRoomState (sid roomId : String)
  | disconnect (sid : String)

/-- The connection an operation originated from, when it is a socket event. -/
def Op.origin : Op → Option String
  | .restCreate .. => none
  | .restJoin .. => none
  | .joinAsHost sid .. => some sid
  | .joinAsParticipant sid .. => some sid
  | .drawNumber sid .. => some sid
  | .markNumber sid .. => some sid
  | .resetDraw sid .. => some sid
  | .getRoomState sid .. => some sid
  | .disconnect sid => some sid

/-- Dispatch one operation against the server state. -/
def step (st : ServerState) : Op → Option Outcome
  | .restCreate roomId hostName numbersPerCard now =>
    some (createRoomRest st roomId hostName numbersPerCard now)
  | .restJoin roomId userId participantName stream fuel now =>
    joinRoomRest st roomId userId participantName stream fuel now
  | .joinAsHost sid roomId userId =>
    some ⟨(joinAsHostH st sid roomId userId).1, (joinAsHostH st sid roomId userId).2, none⟩
  | .joinAsParticipant sid roomId userId =>
    some ⟨(joinAsParticipantH st sid roomId userId).1,
          (joinAsParticipantH st sid roomId userId).2, none⟩
  | .drawNumber sid roomId stream fuel now =>
    (drawNumberH st sid roomId stream fuel now).map (fun r => ⟨r.1, r.2, none⟩)
  | .markNumber sid roomId userId number =>
    some ⟨(markNumberH st sid roomId userId number).1,
          (markNumberH st sid roomId userId number).2, none⟩
  | .resetDraw sid roomId =>
    some ⟨(resetDrawH st sid roomId).1, (resetDrawH st sid roomId).2, none⟩
  | .getRoomState sid roomId =>
    some ⟨(getRoomStateH st sid roomId).1, (getRoomStateH st sid roomId).2, none⟩
  | .disconnect sid =>
    some ⟨(disconnectH st sid).1, (disconnectH st sid).2, none⟩

/-- An emission that reports an error. -/
def Emit.isError : Emit → Bool
  | .unicast _ (.errorMsg _) => true
  | _ => false

/-- An outcome in which the operation failed: either a REST rejection or an
`error` socket event. -/
def Outcome.failed (o : Outcome) : Bool :=
  o.restError.isSome || o.emits.any Emit.isError

/-- Server states reachable from the empty initial state by the operations. -/
inductive Reach : ServerState → Prop
  | init : Reach ⟨[], []⟩
  | next (st : ServerState) (op : Op) (o : Outcome) :
      Reach st → step st op = some o → Reach o.state

def demoStream : Nat → Nat := fun k => k

/-- A sample room and state used to instantiate the theorems below. -/
def roomDemo : Room := ⟨"r1", "Ana", 24, [], [], 0, none⟩

def stDemo : ServerState := ⟨[("r1", roomDemo)], [("s1", ⟨"u1", "r1", true⟩)]⟩

def stDemoNoHost : ServerState := ⟨[("r1", roomDemo)], [("s2", ⟨"u2", "r1", false⟩)]⟩

theorem getA_setA_same {α : Type} :
    ∀ (l : List (String × α)) (k : String) (v : α), getA (setA l k v) k = some v := by
  intro l
  induction l with
  | nil => intro k v; simp [getA, setA]
  | cons p rest ih =>
    intro k v
    by_cases h : p.1 = k
    · simp [setA, h, getA]
    · simp [setA, h, getA, ih]

theorem mem_setA {α : Type} :
    ∀ (l : List (String × α)) (k : String) (v : α) (q : String × α),
      q ∈ setA l k v → q ∈ l ∨ q = (k, v) := by
  intro l
  induction l with
  | nil => intro k v q hq; simp [setA] at hq; simp [hq]
  | cons p rest ih =>
    intro k v q hq
    by_cases h : p.1 = k
    · simp [setA, h] at hq
      rcases hq with hq | hq
      · right; simp [hq]
      · left; simp [hq]
    · simp [setA, h] at hq
      rcases hq with hq | hq
      · left; simp [hq]
      · rcases ih k v q hq with h1 | h1
        · left; simp [h1]
        · right; exact h1

theorem getA_map {α β : Type} (g : α → β) :
    ∀ (l : List (String × α)) (k : String),
      getA (l.map (fun kp => (kp.1, g kp.2))) k = (getA l k).map g := by
  intro l
  induction l with
  | nil => intro k; simp [getA]
  | cons p rest ih =>
    intro k
    by_cases h : p.1 = k
    · simp [getA, h]
    · simp [getA, h, ih]

theorem drawLoop_mem (drawn : List Nat) (stream : Nat → Nat) :
    ∀ (fuel k n : Nat), drawLoop drawn stream fuel k = some n →
      1 ≤ n ∧ n ≤ 75 ∧ n ∉ drawn := by
  intro fuel
  induction fuel with
  | zero => intro k n h; simp [drawLoop] at h
  | succ f ih =>
    intro k n h
    simp only [drawLoop] at h
    split at h
    · exact ih _ _ h
    · rename_i hmem
      injection h with h
      subst h
      refine ⟨by omega, ?_, hmem⟩
      have : stream k % 75 < 75 := Nat.mod_lt _ (by omega)
      omega

/-- C10: `joinAsHost` performs no validation of the supplied `userId` against
the room: for any existing room and any `userId` at all it binds the calling
connection as host and replies `roomJoined` with `isHost = true`, after which
the session lookup used by the host-role checks yields a host session. -/
theorem joinAsHost_no_validation (st : ServerState) (sid roomId userId : String)
    (room : Room) (hr : getA st.rooms roomId = some room) :
    joinAsHostH st sid roomId userId =
      ({ st with users := setA st.users sid ⟨userId, roomId, true⟩ },
       [.unicast sid (.roomJoined room true none)]) ∧
    getA (joinAsHostH st sid roomId userId).1.users sid = some ⟨userId, roomId, true⟩ := by
  refine ⟨by simp [joinAsHostH, hr], ?_⟩
  simp [joinAsHostH, hr, getA_setA_same]

theorem joinAsHost_no_validation_witness :
    joinAsHostH stDemo "s9" "r1" "nobody" =
      ({ stDemo with users := setA stDemo.users "s9" ⟨"nobody", "r1", true⟩ },
       [.unicast "s9" (.roomJoined roomDemo true none)]) ∧
    getA (joinAsHostH stDemo "s9" "r1" "nobody").1.users "s9" =
      some ⟨"nobody", "r1", true⟩ :=
  joinAsHost_no_validation stDemo "s9" "r1" "nobody" roomDemo (by rfl)

/-- C9: `drawNumber` and `resetDraw` reject any caller whose session is absent
or whose session is not a host session, with the corresponding authorization
error, leaving the state unchanged. -/
theorem host_authorization_spec (st : ServerState) (sid roomId : String)
    (stream : Nat → Nat) (fuel now : Nat)
    (h : ∀ u, getA st.users sid = some u → u.isHost = false) :
    drawNumberH st sid roomId stream fuel now =
      some (st, [.unicast sid (.errorMsg drawAuthMsg)]) ∧
    resetDrawH st sid roomId = (st, [.unicast sid (.errorMsg resetAuthMsg)]) := by
  cases hu : getA st.users sid with
  | none => simp [drawNumberH, resetDrawH, hu]
  | some u =>
    have hh := h u hu
    simp [drawNumberH, resetDrawH, hu, hh]

theorem host_authorization_spec_witness :
    drawNumberH stDemoNoHost "s2" "r1" demoStream 1 5 =
      some (stDemoNoHost, [.unicast "s2" (.errorMsg drawAuthMsg)]) ∧
    resetDrawH stDemoNoHost "s2" "r1" =
      (stDemoNoHost, [.unicast "s2" (.errorMsg resetAuthMsg)]) :=
  host_authorization_spec stDemoNoHost "s2" "r1" demoStream 1 5
    (by
      intro u hu
      have h1 : getA stDemoNoHost.users "s2" = some ⟨"u2", "r1", false⟩ := by rfl
      rw [h1] at hu
      injection hu with hu
      rw [← hu])

/-- C2: with a host session and an existing room, `drawNumber` (when its
rejection-sampling loop terminates) produces a number in `[1, 75]` that is not
already among the room's drawn numbers, appends it and re-sorts; and when 75
numbers have already been drawn it fails with the exhaustion error and changes
nothing. -/
theorem drawNumber_spec (st : ServerState) (sid roomId : String)
    (stream : Nat → Nat) (fuel now : Nat) (u : Session) (room : Room)
    (hu : getA st.users sid = some u) (hh : u.isHost = true)
    (hr : getA st.rooms roomId = some room) :
    (room.drawnNumbers.length < 75 →
      ∀ st1 out, drawNumberH st sid roomId stream fuel now = some (st1, out) →
        ∃ number,
          1 ≤ number ∧ number ≤ 75 ∧ number ∉ room.drawnNumbers ∧
          st1 = { st with rooms := setA st.rooms roomId ({ room with
                        drawnNumbers :=
                          List.insertionSort (fun a b => a ≤ b) (room.drawnNumbers ++ [number]),
                        lastDrawnAt := some now }) } ∧
          out = [.broadcast roomId (.numberDrawn number
                  (List.insertionSort (fun a b => a ≤ b) (room.drawnNumbers ++ [number]))
                  (List.insertionSort (fun a b => a ≤ b) (room.drawnNumbers ++ [number])).length)]) ∧
    (room.drawnNumbers.length = 75 →
      drawNumberH st sid roomId stream fuel now =
        some (st, [.unicast sid (.errorMsg exhaustedMsg)])) := by
  constructor
  · intro hlt st1 out hdraw
    simp only [drawNumberH, hu, hh, hr, if_true] at hdraw
    rw [if_neg (by omega)] at hdraw
    cases hloop : drawLoop room.drawnNumbers stream fuel 0 with
    | none => rw [hloop] at hdraw; simp at hdraw
    | some number =>
      rw [hloop] at hdraw
      obtain ⟨h1, h2, h3⟩ := drawLoop_mem room.drawnNumbers stream fuel 0 number hloop
      refine ⟨number, h1, h2, h3, ?_, ?_⟩
      · injection hdraw with hdraw; injection hdraw with ha hb; exact ha.symm
      · injection hdraw with hdraw; injection hdraw with ha hb; exact hb.symm
  · intro heq
    simp only [drawNumberH, hu, hh, hr, if_true]
    rw [if_pos (by omega)]

theorem drawNumber_spec_witness :
    ∃ number,
      1 ≤ number ∧ number ≤ 75 ∧ number ∉ roomDemo.drawnNumbers ∧
      ({ stDemo with rooms := setA stDemo.rooms "r1" ({ roomDemo with
                drawnNumbers := List.insertionSort (fun a b => a ≤ b) ([] ++ [1]),
                lastDrawnAt := some 5 }) } : ServerState) =
        { stDemo with rooms := setA stDemo.rooms "r1" ({ roomDemo with
                drawnNumbers :=
                  List.insertionSort (fun a b => a ≤ b) (roomDemo.drawnNumbers ++ [number]),
                lastDrawnAt := some 5 }) } ∧
      ([Emit.broadcast "r1" (.numberDrawn 1 [1] 1)] : List Emit) =
        [.broadcast "r1" (.numberDrawn number
          (List.insertionSort (fun a b => a ≤ b) (roomDemo.drawnNumbers ++ [number]))
          (List.insertionSort (fun a b => a ≤ b) (roomDemo.drawnNumbers ++ [number])).length)] :=
  (drawNumber_spec stDemo "s1" "r1" demoStream 1 5 ⟨"u1", "r1", true⟩ roomDemo
      (by rfl) (by rfl) (by rfl)).1 (by decide) _ _ (by rfl)

/-- C7: `resetDraw` by a host on an existing room empties the drawn numbers,
clears the last-draw timestamp, and empties every participant's marked
numbers, while every other attribute of the room and of every participant is
unchanged; the reset room snapshot is broadcast to the room. -/
theorem resetDraw_spec (st : ServerState) (sid roomId : String)
    (u : Session) (room : Room)
    (hu : getA st.users sid = some u) (hh : u.isHost = true)
    (hr : getA st.rooms roomId = some room) :
    ∃ room1,
      resetDrawH st sid roomId =
        ({ st with rooms := setA st.rooms roomId room1 },
         [.broadcast roomId (.drawReset room1)]) ∧
      room1.drawnNumbers = [] ∧ room1.lastDrawnAt = none ∧
      room1.id = room.id ∧ room1.hostName = room.hostName ∧
      room1.numbersPerCard = room.numbersPerCard ∧ room1.createdAt = room.createdAt ∧
      getA (setA st.rooms roomId room1) roomId = some room1 ∧
      (∀ k, getA room1.participants k =
        (getA room.participants k).map (fun p => { p with markedNumbers := [] })) := by
  refine ⟨{ room with
      drawnNumbers := [],
      lastDrawnAt := none,
      participants := room.participants.map
        (fun kp => (kp.1, { kp.2 with markedNumbers := [] })) }, ?_, rfl, rfl, rfl, rfl, rfl, rfl,
      getA_setA_same st.rooms roomId _, ?_⟩
  · simp [resetDrawH, hu, hh, hr]
  · intro k
    exact getA_map (fun p => { p with markedNumbers := [] }) room.participants k

/-- On a valid mark request, `markNumberH` stores the toggled marked list and
emits it, with `hasBingo` comparing the new marked count with the card count. -/
theorem markNumberH_success (st : ServerState) (sid roomId userId : String)
    (number : Nat) (room : Room) (p : Participant)
    (hr : getA st.rooms roomId = some room)
    (hp : getA room.participants userId = some p)
    (hc : number ∈ p.card) :
    markNumberH st sid roomId userId number =
      ({ st with rooms := setA st.rooms roomId ({ room with
            participants := setA room.participants userId
              ({ p with markedNumbers := toggle p.markedNumbers number }) }) },
       .unicast sid (.numberMarked number (toggle p.markedNumbers number)
           ((toggle p.markedNumbers number).length == p.card.length)) ::
         (if (toggle p.markedNumbers number).length == p.card.length then
            [.broadcast roomId (.bingo userId p.name)]
          else [])) := by
  simp [markNumberH, hr, hp, hc]

/-- C5: after every successful `markNumber`, the emitted `hasBingo` flag is
true exactly when the participant's stored marked count equals the count of
numbers on their card; the marked list stored in the new state is the emitted
one, the card is untouched, and marked numbers stay a subset of the card (the
free cell, which is not a card number, enters neither count). -/
theorem markNumber_hasBingo_spec (st : ServerState) (sid roomId userId : String)
    (number : Nat) (room : Room) (p : Participant)
    (hr : getA st.rooms roomId = some room)
    (hp : getA room.participants userId = some p)
    (hc : number ∈ p.card) :
    ∃ m b rest st1,
      markNumberH st sid roomId userId number =
        (st1, .unicast sid (.numberMarked number m b) :: rest) ∧
      (b = true ↔ m.length = p.card.length) ∧
      (∃ room1 p1, getA st1.rooms roomId = some room1 ∧
        getA room1.participants userId = some p1 ∧
        p1.markedNumbers = m ∧ p1.card = p.card) ∧
      (p.markedNumbers ⊆ p.card → m ⊆ p.card) := by
  refine ⟨toggle p.markedNumbers number,
    (toggle p.markedNumbers number).length == p.card.length, _, _,
    markNumberH_success st sid roomId userId number room p hr hp hc, beq_iff_eq, ?_, ?_⟩
  · refine ⟨_, _, getA_setA_same _ _ _, getA_setA_same _ _ _, rfl, rfl⟩
  · intro hsub x hx
    unfold toggle at hx
    split at hx
    · exact hsub (List.erase_subset _ _ hx)
    · rcases List.mem_append.mp hx with hx | hx
      · exact hsub hx
      · simp at hx; subst hx; exact hc

def partDemo : Participant := ⟨"u3", "Bruno", [3, 5], [some 3, some 5], 5, 1, 0, 2, [], 1⟩

def roomDemoP : Room := ⟨"r2", "Ana", 2, [], [("u3", partDemo)], 0, none⟩

def stDemoP : ServerState := ⟨[("r2", roomDemoP)], []⟩

theorem markNumber_hasBingo_spec_witness :
    ∃ m b rest st1,
      markNumberH stDemoP "s7" "r2" "u3" 3 =
        (st1, .unicast "s7" (.numberMarked 3 m b) :: rest) ∧
      (b = true ↔ m.length = partDemo.card.length) ∧
      (∃ room1 p1, getA st1.rooms "r2" = some room1 ∧
        getA room1.participants "u3" = some p1 ∧
        p1.markedNumbers = m ∧ p1.card = partDemo.card) ∧
      (partDemo.markedNumbers ⊆ partDemo.card → m ⊆ partDemo.card) :=
  markNumber_hasBingo_spec stDemoP "s7" "r2" "u3" 3 roomDemoP partDemo
    (by rfl) (by rfl) (by decide)

/-- Double toggle of the same number restores the marked list up to
permutation, and restores it exactly when the number was unmarked before. -/
theorem toggle_toggle (marked : List Nat) (number : Nat) (hnd : marked.Nodup) :
    List.Perm (toggle (toggle marked number) number) marked ∧
    (number ∉ marked → toggle (toggle marked number) number = marked) := by
  by_cases hmem : number ∈ marked
  · have h1 : toggle marked number = marked.erase number := by simp [toggle, hmem]
    have h2 : number ∉ marked.erase number := by
      intro hx
      exact absurd (hnd.mem_erase_iff.mp hx).1 (by simp)
    constructor
    · rw [h1]
      have h3 : toggle (marked.erase number) number = marked.erase number ++ [number] := by
        simp [toggle, h2]
      rw [h3]
      exact (List.perm_append_singleton _ _).trans (List.perm_cons_erase hmem).symm
    · intro hx; exact absurd hmem hx
  · have h1 : toggle marked number = marked ++ [number] := by simp [toggle, hmem]
    have h2 : toggle (marked ++ [number]) number = marked := by
      have h3 : number ∈ marked ++ [number] := by simp
      simp only [toggle, if_pos h3]
      rw [List.erase_append_right _ hmem, List.erase_cons_head, List.append_nil]
    rw [h1, h2]
    exact ⟨List.Perm.refl marked, fun _ => rfl⟩

/-- C6 (amended): toggling the same card number twice in succession returns the
participant's stored `markedNumbers` to a permutation of its prior value — and
to exactly its prior value when the number was not marked before the first
toggle.  (The list itself is not restored verbatim when the number was already
marked: removal happens at the number's old position while re-marking appends
at the end, see the counterexample.) -/
theorem toggleMark_double_toggle (st : ServerState) (sid roomId userId : String)
    (number : Nat) (room : Room) (p : Participant)
    (hr : getA st.rooms roomId = some room)
    (hp : getA room.participants userId = some p)
    (hc : number ∈ p.card) (hnd : p.markedNumbers.Nodup) :
    ∃ room2 p2,
      getA (markNumberH (markNumberH st sid roomId userId number).1
              sid roomId userId number).1.rooms roomId = some room2 ∧
      getA room2.participants userId = some p2 ∧
      List.Perm p2.markedNumbers p.markedNumbers ∧
      (number ∉ p.markedNumbers → p2.markedNumbers = p.markedNumbers) := by
  have h1 := markNumberH_success st sid roomId userId number room p hr hp hc
  set p1 : Participant := { p with markedNumbers := toggle p.markedNumbers number } with hp1
  set room1 : Room :=
    { room with participants := setA room.participants userId p1 } with hroom1
  have hst1 : (markNumberH st sid roomId userId number).1 =
      { st with rooms := setA st.rooms roomId room1 } := by rw [h1]
  have hr1 : getA ({ st with rooms := setA st.rooms roomId room1 } : ServerState).rooms
      roomId = some room1 := getA_setA_same _ _ _
  have hp2 : getA room1.participants userId = some p1 := getA_setA_same _ _ _
  have hc1 : number ∈ p1.card := hc
  have h2 := markNumberH_success { st with rooms := setA st.rooms roomId room1 }
    sid roomId userId number room1 p1 hr1 hp2 hc1
  rw [hst1, h2]
  refine ⟨_, _, getA_setA_same _ _ _, getA_setA_same _ _ _, ?_, ?_⟩
  · exact (toggle_toggle p.markedNumbers number hnd).1
  · intro hx
    show toggle (toggle p.markedNumbers number) number = p.markedNumbers
    exact (toggle_toggle p.markedNumbers number hnd).2 hx

theorem toggleMark_double_toggle_witness :
    ∃ room2 p2,
      getA (markNumberH (markNumberH stDemoP "s7" "r2" "u3" 3).1
              "s7" "r2" "u3" 3).1.rooms "r2" = some room2 ∧
      getA room2.participants "u3" = some p2 ∧
      List.Perm p2.markedNumbers partDemo.markedNumbers ∧
      (3 ∉ partDemo.markedNumbers → p2.markedNumbers = partDemo.markedNumbers) :=
  toggleMark_double_toggle stDemoP "s7" "r2" "u3" 3 roomDemoP partDemo
    (by rfl) (by rfl) (by decide) (by decide)

def partDemoT : Participant := ⟨"u4", "Caio", [3, 5], [some 3, some 5], 5, 1, 0, 2, [3, 5], 1⟩

def roomDemoT : Room := ⟨"r3", "Ana", 2, [], [("u4", partDemoT)], 0, none⟩

def stDemoT : ServerState := ⟨[("r3", roomDemoT)], []⟩

/-- C6 counterexample to the claim as stated: with marked numbers `[3, 5]`,
toggling `3` twice leaves the stored list `[5, 3]`, a permutation of — but not
equal to — its prior state `[3, 5]`. -/
theorem toggleMark_double_cex :
    ((getA (markNumberH (markNumberH stDemoT "s8" "r3" "u4" 3).1
        "s8" "r3" "u4" 3).1.rooms "r3").bind
      (fun room2 => getA room2.participants "u4")).map Participant.markedNumbers =
        some [5, 3] ∧
    partDemoT.markedNumbers = [3, 5] ∧ ([5, 3] : List Nat) ≠ [3, 5] := by
  refine ⟨by rfl, rfl, by decide⟩

/-- Failure shape of `joinAsHostH`: the only `error` emission is the unknown
room, and then nothing changes. -/
theorem joinAsHostH_failed (st : ServerState) (sid roomId userId : String)
    (s1 : ServerState) (em : List Emit)
    (h : joinAsHostH st sid roomId userId = (s1, em))
    (hf : em.any Emit.isError = true) :
    s1 = st ∧ ∃ m, em = [Emit.unicast sid (.errorMsg m)] := by
  unfold joinAsHostH at h
  split at h
  · injection h with h1 h2
    subst h1; subst h2
    exact ⟨rfl, roomNotFoundMsg, rfl⟩
  · injection h with h1 h2
    subst h1; subst h2
    simp [Emit.isError] at hf

theorem joinAsParticipantH_failed (st : ServerState) (sid roomId userId : String)
    (s1 : ServerState) (em : List Emit)
    (h : joinAsParticipantH st sid roomId userId = (s1, em))
    (hf : em.any Emit.isError = true) :
    s1 = st ∧ ∃ m, em = [Emit.unicast sid (.errorMsg m)] := by
  unfold joinAsParticipantH at h
  split at h
  · injection h with h1 h2
    subst h1; subst h2
    exact ⟨rfl, roomNotFoundMsg, rfl⟩
  · split at h
    · injection h with h1 h2
      subst h1; subst h2
      exact ⟨rfl, participantNotFoundRoomMsg, rfl⟩
    · injection h with h1 h2
      subst h1; subst h2
      simp [Emit.isError] at hf

theorem drawNumberH_failed (st : ServerState) (sid roomId : String)
    (stream : Nat → Nat) (fuel now : Nat) (s1 : ServerState) (em : List Emit)
    (h : drawNumberH st sid roomId stream fuel now = some (s1, em))
    (hf : em.any Emit.isError = true) :
    s1 = st ∧ ∃ m, em = [Emit.unicast sid (.errorMsg m)] := by
  unfold drawNumberH at h
  split at h
  · injection h with h
    injection h with h1 h2
    subst h1; subst h2
    exact ⟨rfl, drawAuthMsg, rfl⟩
  · split at h
    · split at h
      · injection h with h
        injection h with h1 h2
        subst h1; subst h2
        exact ⟨rfl, roomNotFoundMsg, rfl⟩
      · split at h
        · injection h with h
          injection h with h1 h2
          subst h1; subst h2
          exact ⟨rfl, exhaustedMsg, rfl⟩
        · split at h
          · exact Option.noConfusion h
          · injection h with h
            injection h with h1 h2
            subst h1; subst h2
            simp [Emit.isError] at hf
    · injection h with h
      injection h with h1 h2
      subst h1; subst h2
      exact ⟨rfl, drawAuthMsg, rfl⟩

theorem markNumberH_failed (st : ServerState) (sid roomId userId : String)
    (number : Nat) (s1 : ServerState) (em : List Emit)
    (h : markNumberH st sid roomId userId number = (s1, em))
    (hf : em.any Emit.isError = true) :
    s1 = st ∧ ∃ m, em = [Emit.unicast sid (.errorMsg m)] := by
  unfold markNumberH at h
  split at h
  · injection h with h1 h2
    subst h1; subst h2
    exact ⟨rfl, roomNotFoundMsg, rfl⟩
  · split at h
    · injection h with h1 h2
      subst h1; subst h2
      exact ⟨rfl, participantNotFoundMsg, rfl⟩
    · split at h
      · injection h with h1 h2
        subst h1; subst h2
        rw [List.any_cons] at hf
        simp only [Emit.isError, Bool.false_or] at hf
        split at hf <;> simp [Emit.isError] at hf
      · injection h with h1 h2
        subst h1; subst h2
        exact ⟨rfl, notOnCardMsg, rfl⟩

theorem resetDrawH_failed (st : ServerState) (sid roomId : String)
    (s1 : ServerState) (em : List Emit)
    (h : resetDrawH st sid roomId = (s1, em))
    (hf : em.any Emit.isError = true) :
    s1 = st ∧ ∃ m, em = [Emit.unicast sid (.errorMsg m)] := by
  unfold resetDrawH at h
  split at h
  · injection h with h1 h2
    subst h1; subst h2
    exact ⟨rfl, resetAuthMsg, rfl⟩
  · split at h
    · split at h
      · injection h with h1 h2
        subst h1; subst h2
        exact ⟨rfl, roomNotFoundMsg, rfl⟩
      · injection h with h1 h2
        subst h1; subst h2
        simp [Emit.isError] at hf
    · injection h with h1 h2
      subst h1; subst h2
      exact ⟨rfl, resetAuthMsg, rfl⟩

theorem getRoomStateH_failed (st : ServerState) (sid roomId : String)
    (s1 : ServerState) (em : List Emit)
    (h : getRoomStateH st sid roomId = (s1, em))
    (hf : em.any Emit.isError = true) :
    s1 = st ∧ ∃ m, em = [Emit.unicast sid (.errorMsg m)] := by
  unfold getRoomStateH at h
  split at h
  · injection h with h1 h2
    subst h1; subst h2
    exact ⟨rfl, roomNotFoundMsg, rfl⟩
  · injection h with h1 h2
    subst h1; subst h2
    simp [Emit.isError] at hf

theorem joinRoomRest_failed (st : ServerState) (roomId userId name : String)
    (stream : Nat → Nat) (fuel now : Nat) (o : Outcome)
    (h : joinRoomRest st roomId userId name stream fuel now = some o)
    (hf : o.failed = true) : o.state = st ∧ o.emits = [] := by
  unfold joinRoomRest at h
  split at h
  · injection h with h
    subst h
    exact ⟨rfl, rfl⟩
  · split at h
    · injection h with h
      subst h
      exact ⟨rfl, rfl⟩
    · split at h
      · exact Option.noConfusion h
      · injection h with h
        subst h
        simp [Outcome.failed, Emit.isError] at hf

/-- C4: whenever an operation fails — a REST rejection or an `error` socket
event — the server state is exactly what it was before the call, and every
socket emission of that call is a unicast `error` to the originating
connection (in particular nothing is broadcast to the room). -/
theorem error_unicast_no_state_change (st : ServerState) (op : Op) (o : Outcome)
    (h : step st op = some o) (hf : o.failed = true) :
    o.state = st ∧
    ∀ e ∈ o.emits, ∃ s m, e = Emit.unicast s (EventOut.errorMsg m) ∧
      Op.origin op = some s := by
  cases op with
  | restCreate roomId hostName npc now =>
    simp only [step, Option.some.injEq] at h
    subst h
    by_cases hn : hostName = ""
    · refine ⟨?_, ?_⟩
      · simp [createRoomRest, hn]
      · intro e he
        simp [createRoomRest, hn] at he
    · simp [Outcome.failed, createRoomRest, hn] at hf
  | restJoin roomId userId name stream fuel now =>
    simp only [step] at h
    obtain ⟨h1, h2⟩ := joinRoomRest_failed st roomId userId name stream fuel now o h hf
    refine ⟨h1, ?_⟩
    intro e he
    rw [h2] at he
    exact absurd he (List.not_mem_nil e)
  | joinAsHost sid roomId userId =>
    simp only [step, Option.some.injEq] at h
    subst h
    simp only [Outcome.failed, Option.isSome_none, Bool.false_or] at hf
    obtain ⟨h1, m, h2⟩ := joinAsHostH_failed st sid roomId userId
      (joinAsHostH st sid roomId userId).1 (joinAsHostH st sid roomId userId).2 rfl hf
    refine ⟨h1, ?_⟩
    intro e he
    rw [h2] at he
    rw [List.mem_singleton] at he
    subst he
    exact ⟨sid, m, rfl, rfl⟩
  | joinAsParticipant sid roomId userId =>
    simp only [step, Option.some.injEq] at h
    subst h
    simp only [Outcome.failed, Option.isSome_none, Bool.false_or] at hf
    obtain ⟨h1, m, h2⟩ := joinAsParticipantH_failed st sid roomId userId
      (joinAsParticipantH st sid roomId userId).1 (joinAsParticipantH st sid roomId userId).2 rfl hf
    refine ⟨h1, ?_⟩
    intro e he
    rw [h2] at he
    rw [List.mem_singleton] at he
    subst he
    exact ⟨sid, m, rfl, rfl⟩
  | drawNumber sid roomId stream fuel now =>
    simp only [step] at h
    cases hd : drawNumberH st sid roomId stream fuel now with
    | none => rw [hd] at h; exact Option.noConfusion h
    | some r =>
      rw [hd] at h
      simp only [Option.map_some', Option.some.injEq] at h
      subst h
      simp only [Outcome.failed, Option.isSome_none, Bool.false_or] at hf
      obtain ⟨h1, m, h2⟩ :=
        drawNumberH_failed st sid roomId stream fuel now r.1 r.2 (by rw [hd]) hf
      refine ⟨h1, ?_⟩
      intro e he
      rw [h2] at he
      rw [List.mem_singleton] at he
      subst he
      exact ⟨sid, m, rfl, rfl⟩
  | markNumber sid roomId userId number =>
    simp only [step, Option.some.injEq] at h
    subst h
    simp only [Outcome.failed, Option.isSome_none, Bool.false_or] at hf
    obtain ⟨h1, m, h2⟩ := markNumberH_failed st sid roomId userId number
      (markNumberH st sid roomId userId number).1 (markNumberH st sid roomId userId number).2 rfl hf
    refine ⟨h1, ?_⟩
    intro e he
    rw [h2] at he
    rw [List.mem_singleton] at he
    subst he
    exact ⟨sid, m, rfl, rfl⟩
  | resetDraw sid roomId =>
    simp only [step, Option.some.injEq] at h
    subst h
    simp only [Outcome.failed, Option.isSome_none, Bool.false_or] at hf
    obtain ⟨h1, m, h2⟩ := resetDrawH_failed st sid roomId
      (resetDrawH st sid roomId).1 (resetDrawH st sid roomId).2 rfl hf
    refine ⟨h1, ?_⟩
    intro e he
    rw [h2] at he
    rw [List.mem_singleton] at he
    subst he
    exact ⟨sid, m, rfl, rfl⟩
  | getRoomState sid roomId =>
    simp only [step, Option.some.injEq] at h
    subst h
    simp only [Outcome.failed, Option.isSome_none, Bool.false_or] at hf
    obtain ⟨h1, m, h2⟩ := getRoomStateH_failed st sid roomId
      (getRoomStateH st sid roomId).1 (getRoomStateH st sid roomId).2 rfl hf
    refine ⟨h1, ?_⟩
    intro e he
    rw [h2] at he
    rw [List.mem_singleton] at he
    subst he
    exact ⟨sid, m, rfl, rfl⟩
  | disconnect sid =>
    simp only [step, Option.some.injEq] at h
    subst h
    simp [Outcome.failed, disconnectH, Emit.isError] at hf

theorem error_unicast_no_state_change_witness :
    (Outcome.mk stDemo [Emit.unicast "s4" (.errorMsg roomNotFoundMsg)] none).state = stDemo ∧
    ∀ e ∈ (Outcome.mk stDemo [Emit.unicast "s4" (.errorMsg roomNotFoundMsg)] none).emits,
      ∃ s m, e = Emit.unicast s (EventOut.errorMsg m) ∧
        Op.origin (Op.getRoomState "s4" "missing") = some s :=
  error_unicast_no_state_change stDemo (Op.getRoomState "s4" "missing")
    (Outcome.mk stDemo [Emit.unicast "s4" (.errorMsg roomNotFoundMsg)] none)
    (by rfl) (by rfl)

theorem getA_mem {α : Type} :
    ∀ (l : List (String × α)) (k : String) (v : α), getA l k = some v → (k, v) ∈ l := by
  intro l
  induction l with
  | nil => intro k v h; simp [getA] at h
  | cons p rest ih =>
    obtain ⟨k1, v1⟩ := p
    intro k v h
    unfold getA at h
    split at h
    · rename_i hk
      injection h with h
      subst h
      subst hk
      exact List.mem_cons_self _ _
    · right
      exact ih k v h

/-- The drawn-numbers invariant of the spec: sorted ascending, no duplicates,
every value in `[1, 75]`, at most 75 entries. -/
def DrawnInv (d : List Nat) : Prop :=
  List.Sorted (fun a b => a ≤ b) d ∧ d.Nodup ∧
  (∀ n ∈ d, 1 ≤ n ∧ n ≤ 75) ∧ d.length ≤ 75

/-- Every room of the state satisfies the drawn-numbers invariant. -/
def RoomsInv (st : ServerState) : Prop :=
  ∀ p ∈ st.rooms, DrawnInv p.2.drawnNumbers

theorem DrawnInv_nil : DrawnInv [] :=
  ⟨List.sorted_nil, List.nodup_nil, by simp, by simp⟩

theorem DrawnInv_insert (d : List Nat) (n : Nat) (hd : DrawnInv d)
    (h1 : 1 ≤ n) (h75 : n ≤ 75) (hmem : n ∉ d) (hlen : d.length < 75) :
    DrawnInv (List.insertionSort (fun a b => a ≤ b) (d ++ [n])) := by
  obtain ⟨_, hnd, hbound, _⟩ := hd
  have hperm : List.Perm (List.insertionSort (fun a b => a ≤ b) (d ++ [n])) (n :: d) :=
    (List.perm_insertionSort _ _).trans (List.perm_append_singleton _ _)
  refine ⟨List.sorted_insertionSort _ _, ?_, ?_, ?_⟩
  · exact hperm.nodup_iff.mpr (List.nodup_cons.mpr ⟨hmem, hnd⟩)
  · intro x hx
    rcases List.mem_cons.mp (hperm.mem_iff.mp hx) with hx | hx
    · subst hx; exact ⟨h1, h75⟩
    · exact hbound x hx
  · rw [hperm.length_eq]
    simp only [List.length_cons]
    omega

theorem joinRoomRest_preserves (st : ServerState) (roomId userId name : String)
    (stream : Nat → Nat) (fuel now : Nat) (o : Outcome)
    (h : joinRoomRest st roomId userId name stream fuel now = some o)
    (ih : RoomsInv st) : RoomsInv o.state := by
  unfold joinRoomRest at h
  split at h
  · injection h with h; subst h; exact ih
  · split at h
    · injection h with h; subst h; exact ih
    · rename_i room hroom
      split at h
      · exact Option.noConfusion h
      · injection h with h
        subst h
        intro p hp
        rcases mem_setA _ _ _ _ hp with hmem | heq
        · exact ih p hmem
        · subst heq
          exact ih (roomId, room) (getA_mem _ _ _ hroom)

theorem markNumberH_preserves (st : ServerState) (sid roomId userId : String)
    (number : Nat) (ih : RoomsInv st) :
    RoomsInv (markNumberH st sid roomId userId number).1 := by
  cases hr : getA st.rooms roomId with
  | none => simp only [markNumberH, hr]; exact ih
  | some room =>
    cases hp : getA room.participants userId with
    | none => simp only [markNumberH, hr, hp]; exact ih
    | some participant =>
      by_cases hc : number ∈ participant.card
      · rw [markNumberH_success st sid roomId userId number room participant hr hp hc]
        intro p hpm
        rcases mem_setA _ _ _ _ hpm with hmem | heq
        · exact ih p hmem
        · subst heq
          exact ih (roomId, room) (getA_mem _ _ _ hr)
      · simp only [markNumberH, hr, hp, if_neg hc]
        exact ih

theorem drawNumberH_preserves (st : ServerState) (sid roomId : String)
    (stream : Nat → Nat) (fuel now : Nat) (s1 : ServerState) (em : List Emit)
    (h : drawNumberH st sid roomId stream fuel now = some (s1, em))
    (ih : RoomsInv st) : RoomsInv s1 := by
  unfold drawNumberH at h
  split at h
  · injection h with h
    injection h with h1 h2
    subst h1
    exact ih
  · split at h
    · split at h
      · injection h with h
        injection h with h1 h2
        subst h1
        exact ih
      · rename_i room hroom
        split at h
        · injection h with h
          injection h with h1 h2
          subst h1
          exact ih
        · rename_i hnex
          split at h
          · exact Option.noConfusion h
          · rename_i number hloop
            injection h with h
            injection h with h1 h2
            subst h1
            intro p hp
            rcases mem_setA _ _ _ _ hp with hmem | heq
            · exact ih p hmem
            · subst heq
              obtain ⟨hn1, hn75, hnmem⟩ := drawLoop_mem _ _ _ _ _ hloop
              exact DrawnInv_insert room.drawnNumbers number
                (ih (roomId, room) (getA_mem _ _ _ hroom)) hn1 hn75 hnmem (by omega)
    · injection h with h
      injection h with h1 h2
      subst h1
      exact ih

theorem resetDrawH_preserves (st : ServerState) (sid roomId : String)
    (ih : RoomsInv st) : RoomsInv (resetDrawH st sid roomId).1 := by
  unfold resetDrawH
  split
  · exact ih
  · split
    · split
      · exact ih
      · intro p hp
        rcases mem_setA _ _ _ _ hp with hmem | heq
        · exact ih p hmem
        · subst heq
          exact DrawnInv_nil
    · exact ih

theorem joinAsHostH_rooms (st : ServerState) (sid roomId userId : String) :
    (joinAsHostH st sid roomId userId).1.rooms = st.rooms := by
  unfold joinAsHostH
  split <;> rfl

theorem joinAsParticipantH_rooms (st : ServerState) (sid roomId userId : String) :
    (joinAsParticipantH st sid roomId userId).1.rooms = st.rooms := by
  unfold joinAsParticipantH
  split
  · rfl
  · split <;> rfl

theorem getRoomStateH_state (st : ServerState) (sid roomId : String) :
    (getRoomStateH st sid roomId).1 = st := by
  unfold getRoomStateH
  split <;> rfl

/-- C8: in every server state reachable by the operations, every room's drawn
numbers are sorted ascending without duplicates, all in `[1, 75]`, and at most
75 of them; in particular `drawNumber` and `resetDraw` preserve the invariant. -/
theorem reachable_drawnNumbers_invariant (st : ServerState) (h : Reach st) :
    RoomsInv st := by
  induction h with
  | init => intro p hp; exact absurd hp (List.not_mem_nil p)
  | next st1 op o hst hstep ih =>
    cases op with
    | restCreate roomId hostName npc now =>
      simp only [step, Option.some.injEq] at hstep
      subst hstep
      unfold createRoomRest
      split
      · exact ih
      · intro p hp
        rcases mem_setA _ _ _ _ hp with hmem | heq
        · exact ih p hmem
        · subst heq
          exact DrawnInv_nil
    | restJoin roomId userId name stream fuel now =>
      simp only [step] at hstep
      exact joinRoomRest_preserves st1 roomId userId name stream fuel now o hstep ih
    | joinAsHost sid roomId userId =>
      simp only [step, Option.some.injEq] at hstep
      subst hstep
      intro p hp
      rw [joinAsHostH_rooms] at hp
      exact ih p hp
    | joinAsParticipant sid roomId userId =>
      simp only [step, Option.some.injEq] at hstep
      subst hstep
      intro p hp
      rw [joinAsParticipantH_rooms] at hp
      exact ih p hp
    | drawNumber sid roomId stream fuel now =>
      simp only [step] at hstep
      cases hd : drawNumberH st1 sid roomId stream fuel now with
      | none => rw [hd] at hstep; exact Option.noConfusion hstep
      | some r =>
        rw [hd] at hstep
        simp only [Option.map_some', Option.some.injEq] at hstep
        subst hstep
        exact drawNumberH_preserves st1 sid roomId stream fuel now r.1 r.2
          (by rw [hd]) ih
    | markNumber sid roomId userId number =>
      simp only [step, Option.some.injEq] at hstep
      subst hstep
      exact markNumberH_preserves st1 sid roomId userId number ih
    | resetDraw sid roomId =>
      simp only [step, Option.some.injEq] at hstep
      subst hstep
      exact resetDrawH_preserves st1 sid roomId ih
    | getRoomState sid roomId =>
      simp only [step, Option.some.injEq] at hstep
      subst hstep
      intro p hp
      rw [getRoomStateH_state] at hp
      exact ih p hp
    | disconnect sid =>
      simp only [step, Option.some.injEq] at hstep
      subst hstep
      intro p hp
      exact ih p hp

theorem reachable_drawnNumbers_invariant_witness : RoomsInv ⟨[], []⟩ :=
  reachable_drawnNumbers_invariant ⟨[], []⟩ Reach.init

theorem resetDraw_spec_witness :
    ∃ room1,
      resetDrawH stDemo "s1" "r1" =
        ({ stDemo with rooms := setA stDemo.rooms "r1" room1 },
         [.broadcast "r1" (.drawReset room1)]) ∧
      room1.drawnNumbers = [] ∧ room1.lastDrawnAt = none ∧
      room1.id = roomDemo.id ∧ room1.hostName = roomDemo.hostName ∧
      room1.numbersPerCard = roomDemo.numbersPerCard ∧ room1.createdAt = roomDemo.createdAt ∧
      getA (setA stDemo.rooms "r1" room1) "r1" = some room1 ∧
      (∀ k, getA room1.participants k =
        (getA roomDemo.participants k).map (fun p => { p with markedNumbers := [] })) :=
  resetDraw_spec stDemo "s1" "r1" ⟨"u1", "r1", true⟩ roomDemo (by rfl) (by rfl) (by rfl)

theorem preCount_0 (size : Nat) :
    preCount size 0 = if 0 < size % 5 then size / 5 + 1 else size / 5 := by
  simp [preCount, remCount, baseCount]

theorem preCount_1 (size : Nat) :
    preCount size 1 = if 1 < size % 5 then size / 5 + 1 else size / 5 := by
  simp [preCount, remCount, baseCount]

theorem preCount_2 (size : Nat) : preCount size 2 = size / 5 := by
  simp [preCount, baseCount]

theorem preCount_3 (size : Nat) :
    preCount size 3 = if 2 < size % 5 then size / 5 + 1 else size / 5 := by
  simp [preCount, remCount, baseCount]

theorem preCount_4 (size : Nat) :
    preCount size 4 = if 3 < size % 5 then size / 5 + 1 else size / 5 := by
  simp [preCount, remCount, baseCount]

/-- The first loop's totals always add up to the requested size: the shortfall
adjustment of `generateBingoCard` never fires. -/
theorem totalTarget_eq (size : Nat) : totalTarget size = size := by
  have h5 : List.range 5 = [0, 1, 2, 3, 4] := rfl
  unfold totalTarget
  rw [h5]
  simp only [List.foldl, preCount_0, preCount_1, preCount_2, preCount_3, preCount_4]
  have hm : size % 5 < 5 := Nat.mod_lt _ (by omega)
  split_ifs <;> omega

theorem targetCounts_eq (size : Nat) :
    targetCounts size = (List.range 5).map (fun col => (preCount size col : Int)) := by
  simp [targetCounts, totalTarget_eq]

theorem sampleColumn_spec (stream : Nat → Nat) (lo hi : Nat) (count : Int) :
    ∀ (fuel k : Nat) (acc l : List Nat) (k2 : Nat),
      sampleColumn stream lo hi count fuel k acc = some (l, k2) →
      (acc.Nodup → l.Nodup) ∧
      (lo ≤ hi → (∀ x ∈ acc, lo ≤ x ∧ x ≤ hi) → ∀ x ∈ l, lo ≤ x ∧ x ≤ hi) ∧
      ((acc.length : Int) ≤ count → (l.length : Int) = count) := by
  intro fuel
  induction fuel with
  | zero =>
    intro k acc l k2 h
    simp only [sampleColumn] at h
    split at h
    · exact Option.noConfusion h
    · rename_i hge
      injection h with h
      injection h with ha hb
      subst ha
      exact ⟨id, fun _ hb => hb, fun hle => by omega⟩
  | succ f ihf =>
    intro k acc l k2 h
    simp only [sampleColumn] at h
    split at h
    · rename_i hlt
      split at h
      · exact (ihf _ _ _ _ h).imp id (fun p => p.imp id (fun q hle => q (by omega)))
      · rename_i hm
        obtain ⟨ha, hb, hc⟩ := ihf _ _ _ _ h
        refine ⟨?_, ?_, ?_⟩
        · intro hnd
          apply ha
          exact ((List.perm_append_singleton _ _).nodup_iff).mpr
            (List.nodup_cons.mpr ⟨hm, hnd⟩)
        · intro hlh hbound
          apply hb hlh
          intro x hx
          rcases List.mem_append.mp hx with hx | hx
          · exact hbound x hx
          · rw [List.mem_singleton] at hx
            subst hx
            have hmod : stream k % (hi - lo + 1) < hi - lo + 1 := Nat.mod_lt _ (by omega)
            constructor <;> omega
        · intro hle
          apply hc
          rw [List.length_append]
          simp only [List.length_singleton]
          omega
    · rename_i hge
      injection h with h
      injection h with ha hb
      subst ha
      exact ⟨id, fun _ hb => hb, fun hle => by omega⟩

theorem genColumns_spec (stream : Nat → Nat) (fuel : Nat) :
    ∀ (inputs : List ((Nat × Nat) × Int)) (k : Nat) (cols : List (List Nat)) (k2 : Nat),
      genColumns stream fuel inputs k = some (cols, k2) →
      List.Forall₂ (fun (inp : (Nat × Nat) × Int) (col : List Nat) =>
        col.Nodup ∧
        (inp.1.1 ≤ inp.1.2 → ∀ x ∈ col, inp.1.1 ≤ x ∧ x ≤ inp.1.2) ∧
        ((0 : Int) ≤ inp.2 → (col.length : Int) = inp.2) ∧
        List.Sorted (fun a b => a ≤ b) col) inputs cols := by
  intro inputs
  induction inputs with
  | nil =>
    intro k cols k2 h
    simp only [genColumns] at h
    injection h with h
    injection h with ha hb
    subst ha
    exact List.Forall₂.nil
  | cons ip rest ih =>
    obtain ⟨⟨lo, hi⟩, cnt⟩ := ip
    intro k cols k2 h
    simp only [genColumns] at h
    split at h
    · exact Option.noConfusion h
    · rename_i nums k1 hsamp
      split at h
      · exact Option.noConfusion h
      · rename_i cols2 k3 hrest
        injection h with h
        injection h with ha hb
        subst ha
        refine List.Forall₂.cons ?_ (ih _ _ _ hrest)
        obtain ⟨hnd, hrange, hlen⟩ := sampleColumn_spec stream lo hi cnt fuel k [] nums k1 hsamp
        have hperm : List.Perm (List.insertionSort (fun a b => a ≤ b) nums) nums :=
          List.perm_insertionSort _ _
        refine ⟨?_, ?_, ?_, ?_⟩
        · exact hperm.nodup_iff.mpr (hnd List.nodup_nil)
        · intro hlh x hx
          exact hrange hlh (by simp) x (hperm.mem_iff.mp hx)
        · intro hpos
          rw [hperm.length_eq]
          exact hlen (by simpa using hpos)
        · exact List.sorted_insertionSort _ _

theorem zip_ranges_counts (size : Nat) :
    columnRanges.zip (targetCounts size) =
      [((1, 15), (preCount size 0 : Int)), ((16, 30), (preCount size 1 : Int)),
       ((31, 45), (preCount size 2 : Int)), ((46, 60), (preCount size 3 : Int)),
       ((61, 75), (preCount size 4 : Int))] := by
  rw [targetCounts_eq]
  rfl

theorem totalTarget_expand (size : Nat) :
    preCount size 0 + preCount size 1 + preCount size 2 + preCount size 3 +
      preCount size 4 = size := by
  have h := totalTarget_eq size
  unfold totalTarget at h
  rw [show List.range 5 = [0, 1, 2, 3, 4] from rfl] at h
  simp only [List.foldl] at h
  omega

/-- C1: whenever `generateBingoCard` succeeds on a valid size, the flat number
list has exactly `size` pairwise-distinct entries, all within `[1, 75]`; for
each column the count of entries in that column's range is exactly the
column's target, and in particular the center column contributes exactly
`⌊size / 5⌋` numbers. -/
theorem generateBingoCard_numbers_spec (stream : Nat → Nat) (fuel size : Nat)
    (c : CardData) (hpos : 1 ≤ size) (hle : size ≤ 75)
    (hg : generateBingoCard stream fuel size = some c) :
    c.numbers.length = size ∧ c.numbers.Nodup ∧
    (∀ n ∈ c.numbers, 1 ≤ n ∧ n ≤ 75) ∧
    (∀ j, j < 5 → c.numbers.countP
        (fun n => decide ((columnRanges.getD j (0, 0)).1 ≤ n ∧
          n ≤ (columnRanges.getD j (0, 0)).2)) = preCount size j) ∧
    c.numbers.countP (fun n => decide (31 ≤ n ∧ n ≤ 45)) = size / 5 := by
  unfold generateBingoCard at hg
  split at hg
  · exact Option.noConfusion hg
  · rename_i columnNumbers k2 hcols
    injection hg with hg
    have hnum : c.numbers =
        List.insertionSort (fun a b => a ≤ b) columnNumbers.flatten :=
      (congrArg CardData.numbers hg).symm
    rw [zip_ranges_counts] at hcols
    have hf := genColumns_spec stream fuel _ 0 columnNumbers k2 hcols
    rcases hf with _ | ⟨h0, hf⟩
    rcases hf with _ | ⟨h1, hf⟩
    rcases hf with _ | ⟨h2, hf⟩
    rcases hf with _ | ⟨h3, hf⟩
    rcases hf with _ | ⟨h4, hf⟩
    rcases hf with _ | _
    rename_i l0 l1 l2 l3 l4
    have e0 : l0.Nodup := h0.1
    have e1 : l1.Nodup := h1.1
    have e2 : l2.Nodup := h2.1
    have e3 : l3.Nodup := h3.1
    have e4 : l4.Nodup := h4.1
    have r0 : ∀ x ∈ l0, 1 ≤ x ∧ x ≤ 15 := h0.2.1 (show (1 : Nat) ≤ 15 by norm_num)
    have r1 : ∀ x ∈ l1, 16 ≤ x ∧ x ≤ 30 := h1.2.1 (show (16 : Nat) ≤ 30 by norm_num)
    have r2 : ∀ x ∈ l2, 31 ≤ x ∧ x ≤ 45 := h2.2.1 (show (31 : Nat) ≤ 45 by norm_num)
    have r3 : ∀ x ∈ l3, 46 ≤ x ∧ x ≤ 60 := h3.2.1 (show (46 : Nat) ≤ 60 by norm_num)
    have r4 : ∀ x ∈ l4, 61 ≤ x ∧ x ≤ 75 := h4.2.1 (show (61 : Nat) ≤ 75 by norm_num)
    have n0 : l0.length = preCount size 0 :=
      Nat.cast_inj.mp (h0.2.2.1 (Int.ofNat_nonneg _))
    have n1 : l1.length = preCount size 1 :=
      Nat.cast_inj.mp (h1.2.2.1 (Int.ofNat_nonneg _))
    have n2 : l2.length = preCount size 2 :=
      Nat.cast_inj.mp (h2.2.2.1 (Int.ofNat_nonneg _))
    have n3 : l3.length = preCount size 3 :=
      Nat.cast_inj.mp (h3.2.2.1 (Int.ofNat_nonneg _))
    have n4 : l4.length = preCount size 4 :=
      Nat.cast_inj.mp (h4.2.2.1 (Int.ofNat_nonneg _))
    have hflat : ([l0, l1, l2, l3, l4] : List (List Nat)).flatten =
        l0 ++ (l1 ++ (l2 ++ (l3 ++ l4))) := by
      simp
    have hperm : List.Perm c.numbers (l0 ++ (l1 ++ (l2 ++ (l3 ++ l4)))) := by
      rw [hnum, hflat]
      exact List.perm_insertionSort _ _
    have b34 : ∀ x ∈ l3 ++ l4, 46 ≤ x ∧ x ≤ 75 := by
      intro x hx
      rcases List.mem_append.mp hx with hx | hx
      · have := r3 x hx; omega
      · have := r4 x hx; omega
    have b234 : ∀ x ∈ l2 ++ (l3 ++ l4), 31 ≤ x ∧ x ≤ 75 := by
      intro x hx
      rcases List.mem_append.mp hx with hx | hx
      · have := r2 x hx; omega
      · have := b34 x hx; omega
    have b1234 : ∀ x ∈ l1 ++ (l2 ++ (l3 ++ l4)), 16 ≤ x ∧ x ≤ 75 := by
      intro x hx
      rcases List.mem_append.mp hx with hx | hx
      · have := r1 x hx; omega
      · have := b234 x hx; omega
    have hall : ∀ x ∈ l0 ++ (l1 ++ (l2 ++ (l3 ++ l4))), 1 ≤ x ∧ x ≤ 75 := by
      intro x hx
      rcases List.mem_append.mp hx with hx | hx
      · have := r0 x hx; omega
      · have := b1234 x hx; omega
    have hnd : (l0 ++ (l1 ++ (l2 ++ (l3 ++ l4)))).Nodup := by
      refine List.nodup_append.mpr ⟨e0, ?_, ?_⟩
      · refine List.nodup_append.mpr ⟨e1, ?_, ?_⟩
        · refine List.nodup_append.mpr ⟨e2, ?_, ?_⟩
          · refine List.nodup_append.mpr ⟨e3, e4, ?_⟩
            intro a ha hb
            have q1 := r3 a ha
            have q2 := r4 a hb
            omega
          · intro a ha hb
            have q1 := r2 a ha
            have q2 := b34 a hb
            omega
        · intro a ha hb
          have q1 := r1 a ha
          have q2 := b234 a hb
          omega
      · intro a ha hb
        have q1 := r0 a ha
        have q2 := b1234 a hb
        omega
    have hlen : c.numbers.length = size := by
      rw [hperm.length_eq]
      simp only [List.length_append]
      rw [n0, n1, n2, n3, n4]
      have := totalTarget_expand size
      omega
    have cpL : ∀ (p : Nat → Bool),
        (l0 ++ (l1 ++ (l2 ++ (l3 ++ l4)))).countP p =
          l0.countP p + l1.countP p + l2.countP p + l3.countP p + l4.countP p := by
      intro p
      simp only [List.countP_append]
      omega
    have cfull : ∀ (p : Nat → Bool) (l : List Nat), (∀ x ∈ l, p x = true) →
        l.countP p = l.length := by
      intro p l hp
      exact List.countP_eq_length.mpr hp
    have czero : ∀ (p : Nat → Bool) (l : List Nat), (∀ x ∈ l, ¬p x = true) →
        l.countP p = 0 := by
      intro p l hp
      exact List.countP_eq_zero.mpr hp
    have c0 : c.numbers.countP (fun n => decide (1 ≤ n ∧ n ≤ 15)) = preCount size 0 := by
      rw [hperm.countP_eq, cpL]
      rw [cfull _ l0 (by intro x hx; have := r0 x hx; simpa using this)]
      rw [czero _ l1 (by intro x hx; have := r1 x hx; simp; omega)]
      rw [czero _ l2 (by intro x hx; have := r2 x hx; simp; omega)]
      rw [czero _ l3 (by intro x hx; have := r3 x hx; simp; omega)]
      rw [czero _ l4 (by intro x hx; have := r4 x hx; simp; omega)]
      omega
    have c1 : c.numbers.countP (fun n => decide (16 ≤ n ∧ n ≤ 30)) = preCount size 1 := by
      rw [hperm.countP_eq, cpL]
      rw [czero _ l0 (by intro x hx; have := r0 x hx; simp; omega)]
      rw [cfull _ l1 (by intro x hx; have := r1 x hx; simpa using this)]
      rw [czero _ l2 (by intro x hx; have := r2 x hx; simp; omega)]
      rw [czero _ l3 (by intro x hx; have := r3 x hx; simp; omega)]
      rw [czero _ l4 (by intro x hx; have := r4 x hx; simp; omega)]
      omega
    have c2 : c.numbers.countP (fun n => decide (31 ≤ n ∧ n ≤ 45)) = preCount size 2 := by
      rw [hperm.countP_eq, cpL]
      rw [czero _ l0 (by intro x hx; have := r0 x hx; simp; omega)]
      rw [czero _ l1 (by intro x hx; have := r1 x hx; simp; omega)]
      rw [cfull _ l2 (by intro x hx; have := r2 x hx; simpa using this)]
      rw [czero _ l3 (by intro x hx; have := r3 x hx; simp; omega)]
      rw [czero _ l4 (by intro x hx; have := r4 x hx; simp; omega)]
      omega
    have c3 : c.numbers.countP (fun n => decide (46 ≤ n ∧ n ≤ 60)) = preCount size 3 := by
      rw [hperm.countP_eq, cpL]
      rw [czero _ l0 (by intro x hx; have := r0 x hx; simp; omega)]
      rw [czero _ l1 (by intro x hx; have := r1 x hx; simp; omega)]
      rw [czero _ l2 (by intro x hx; have := r2 x hx; simp; omega)]
      rw [cfull _ l3 (by intro x hx; have := r3 x hx; simpa using this)]
      rw [czero _ l4 (by intro x hx; have := r4 x hx; simp; omega)]
      omega
    have c4 : c.numbers.countP (fun n => decide (61 ≤ n ∧ n ≤ 75)) = preCount size 4 := by
      rw [hperm.countP_eq, cpL]
      rw [czero _ l0 (by intro x hx; have := r0 x hx; simp; omega)]
      rw [czero _ l1 (by intro x hx; have := r1 x hx; simp; omega)]
      rw [czero _ l2 (by intro x hx; have := r2 x hx; simp; omega)]
      rw [czero _ l3 (by intro x hx; have := r3 x hx; simp; omega)]
      rw [cfull _ l4 (by intro x hx; have := r4 x hx; simpa using this)]
      omega
    refine ⟨hlen, hperm.nodup_iff.mpr hnd, ?_, ?_, ?_⟩
    · intro n hn
      exact hall n (hperm.mem_iff.mp hn)
    · intro j hj
      interval_cases j
      · exact c0
      · exact c1
      · exact c2
      · exact c3
      · exact c4
    · rw [c2, preCount_2]

/-- Closed form of a non-center column of the matrix: row `i` holds the
`(idx + i)`-th number of the column (or `none` once exhausted). -/
theorem buildColAux_false (nums : List Nat) (cr : Nat) :
    ∀ (fuel row idx : Nat),
      buildColAux nums cr false row idx fuel =
        (List.range fuel).map (fun i => nums[idx + i]?) := by
  intro fuel
  induction fuel with
  | zero => intro row idx; rfl
  | succ f ih =>
    intro row idx
    rw [List.range_succ_eq_map, List.map_cons, List.map_map]
    cases hidx : nums[idx]? with
    | some v =>
      simp only [buildColAux, hidx, Bool.false_eq_true, false_and, if_false]
      rw [ih (row + 1) (idx + 1)]
      refine List.cons_eq_cons.mpr ⟨by rw [Nat.add_zero, hidx], ?_⟩
      apply List.map_congr_left
      intro i hi
      simp only [Function.comp]
      congr 1
      omega
    | none =>
      simp only [buildColAux, hidx, Bool.false_eq_true, false_and, if_false]
      rw [ih (row + 1) idx]
      have hlen : nums.length ≤ idx := List.getElem?_eq_none_iff.mp hidx
      refine List.cons_eq_cons.mpr ⟨by rw [Nat.add_zero, hidx], ?_⟩
      apply List.map_congr_left
      intro i hi
      simp only [Function.comp]
      rw [List.getElem?_eq_none (by omega), List.getElem?_eq_none (by omega)]

/-- Closed form of the center column of the matrix: the cell at `centerRow` is
free, cells above it consume numbers positionally, cells below are shifted by
one because the free cell consumes no number. -/
theorem buildColAux_true (nums : List Nat) (cr : Nat) :
    ∀ (fuel row idx : Nat),
      buildColAux nums cr true row idx fuel =
        (List.range fuel).map (fun i =>
          if row + i = cr then none
          else nums[idx + i - (if row ≤ cr ∧ cr < row + i then 1 else 0)]?) := by
  intro fuel
  induction fuel with
  | zero => intro row idx; rfl
  | succ f ih =>
    intro row idx
    rw [List.range_succ_eq_map, List.map_cons, List.map_map]
    by_cases hc : row = cr
    · simp only [buildColAux]
      rw [if_pos (show True ∧ row = cr from ⟨trivial, hc⟩)]
      rw [ih (row + 1) idx]
      refine List.cons_eq_cons.mpr ⟨?_, ?_⟩
      · simp only [Nat.add_zero]
        rw [if_pos hc]
      · apply List.map_congr_left
        intro i hi
        simp only [Function.comp, Nat.succ_eq_add_one]
        rw [if_neg (by omega), if_neg (by omega : ¬(row + (i + 1) = cr))]
        rw [if_neg (by omega), if_pos (show row ≤ cr ∧ cr < row + (i + 1) by omega)]
        congr 1
    · cases hidx : nums[idx]? with
      | some v =>
        simp only [buildColAux, hidx]
        rw [if_neg (fun h => hc h.2)]
        rw [ih (row + 1) (idx + 1)]
        refine List.cons_eq_cons.mpr ⟨?_, ?_⟩
        · simp only [Nat.add_zero]
          rw [if_neg hc, if_neg (by omega : ¬(row ≤ cr ∧ cr < row)), Nat.sub_zero, hidx]
        · apply List.map_congr_left
          intro i hi
          simp only [Function.comp, Nat.succ_eq_add_one]
          by_cases hci : row + 1 + i = cr
          · rw [if_pos hci, if_pos (by omega : row + (i + 1) = cr)]
          · rw [if_neg hci, if_neg (by omega : ¬(row + (i + 1) = cr))]
            by_cases hs : row + 1 ≤ cr ∧ cr < row + 1 + i
            · rw [if_pos hs, if_pos (show row ≤ cr ∧ cr < row + (i + 1) by omega)]
              congr 1
              omega
            · rw [if_neg hs, if_neg (fun h => hs ⟨by omega, by omega⟩)]
              congr 1
              omega
      | none =>
        simp only [buildColAux, hidx]
        rw [if_neg (fun h => hc h.2)]
        rw [ih (row + 1) idx]
        have hlen : nums.length ≤ idx := List.getElem?_eq_none_iff.mp hidx
        refine List.cons_eq_cons.mpr ⟨?_, ?_⟩
        · simp only [Nat.add_zero]
          rw [if_neg hc, if_neg (by omega : ¬(row ≤ cr ∧ cr < row)), Nat.sub_zero,
            List.getElem?_eq_none (by omega)]
        · apply List.map_congr_left
          intro i hi
          simp only [Function.comp, Nat.succ_eq_add_one]
          by_cases hci : row + 1 + i = cr
          · rw [if_pos hci, if_pos (by omega : row + (i + 1) = cr)]
          · rw [if_neg hci, if_neg (by omega : ¬(row + (i + 1) = cr))]
            by_cases hs : row + 1 ≤ cr ∧ cr < row + 1 + i
            · rw [if_pos hs, if_pos (show row ≤ cr ∧ cr < row + (i + 1) by omega)]
              rw [List.getElem?_eq_none (by omega), List.getElem?_eq_none (by omega)]
            · rw [if_neg hs, if_neg (fun h => hs ⟨by omega, by omega⟩)]
              rw [List.getElem?_eq_none (by omega), List.getElem?_eq_none (by omega)]

theorem getD_map_range {α : Type} (n i : Nat) (d : α) (g : Nat → α) (h : i < n) :
    ((List.range n).map g).getD i d = g i := by
  rw [List.getD_eq_getElem?_getD, List.getElem?_map, List.getElem?_range h]
  rfl

theorem flat_grid_length {α : Type} (n : Nat) (f : Nat → Nat → α) :
    ((List.range n).flatMap (fun row => (List.range 5).map (fun col => f row col))).length =
      n * 5 := by
  induction n with
  | zero => rfl
  | succ m ih =>
    rw [List.range_succ, List.flatMap_append, List.length_append, ih]
    simp [Nat.succ_mul]

theorem flat_grid_getD {α : Type} (n : Nat) (f : Nat → Nat → α) (d : α) :
    ∀ (r c : Nat), r < n → c < 5 →
      ((List.range n).flatMap (fun row => (List.range 5).map (fun col => f row col))).getD
        (r * 5 + c) d = f r c := by
  induction n with
  | zero => intro r c hr; omega
  | succ m ih =>
    intro r c hr hc
    rw [List.range_succ, List.flatMap_append]
    by_cases hrm : r < m
    · rw [List.getD_append _ _ _ _ (by rw [flat_grid_length]; omega)]
      exact ih r c hrm hc
    · have hr2 : r = m := by omega
      subst hr2
      rw [List.getD_append_right _ _ _ _ (by rw [flat_grid_length]; omega)]
      rw [flat_grid_length]
      have he : r * 5 + c - r * 5 = c := by omega
      rw [he]
      simp only [List.flatMap_cons, List.flatMap_nil, List.append_nil]
      exact getD_map_range 5 c d _ hc

def cardDemo : CardData :=
  ⟨[1, 2, 18, 19, 35, 51, 67],
   [some 1, some 18, some 35, some 51, some 67, some 2, some 19, none, none, none],
   5, 2, 1, 2⟩

theorem generateBingoCard_numbers_spec_witness :
    cardDemo.numbers.length = 7 ∧ cardDemo.numbers.Nodup ∧
    (∀ n ∈ cardDemo.numbers, 1 ≤ n ∧ n ≤ 75) ∧
    (∀ j, j < 5 → cardDemo.numbers.countP
        (fun n => decide ((columnRanges.getD j (0, 0)).1 ≤ n ∧
          n ≤ (columnRanges.getD j (0, 0)).2)) = preCount 7 j) ∧
    cardDemo.numbers.countP (fun n => decide (31 ≤ n ∧ n ≤ 45)) = 7 / 5 :=
  generateBingoCard_numbers_spec demoStream 64 7 cardDemo (by norm_num) (by norm_num) (by rfl)

/-- C3 (amended): the grid has `ceil((size + 1) / 5)` rows of 5 cells each, the
center row is `floor(rows / 2)`, the center column is 2, and the cell at
`(centerRow, centerCol)` is always the free (null) cell; that free cell is the
unique null cell of the grid exactly when `size % 5 = 4` (e.g. the default
size 24) — for every other size the under-filled columns leave additional
null cells. -/
theorem grid_layout_spec (stream : Nat → Nat) (fuel size : Nat) (c : CardData)
    (hpos : 1 ≤ size) (hle : size ≤ 75)
    (hg : generateBingoCard stream fuel size = some c) :
    c.numbersPerRow = 5 ∧
    c.numbersPerCol = (size + 1 + 4) / 5 ∧
    c.centerRow = c.numbersPerCol / 2 ∧
    c.centerCol = 2 ∧
    c.grid.length = c.numbersPerCol * 5 ∧
    c.grid.getD (c.centerRow * 5 + c.centerCol) (some 0) = none ∧
    ((∀ r, r < c.numbersPerCol → ∀ col, col < 5 → ¬(r = c.centerRow ∧ col = 2) →
        c.grid.getD (r * 5 + col) none ≠ none) ↔ size % 5 = 4) := by
  unfold generateBingoCard at hg
  split at hg
  · exact Option.noConfusion hg
  · rename_i columnNumbers k2 hcols
    injection hg with hg
    rw [zip_ranges_counts] at hcols
    have hf := genColumns_spec stream fuel _ 0 columnNumbers k2 hcols
    rcases hf with _ | ⟨h0, hf⟩
    rcases hf with _ | ⟨h1, hf⟩
    rcases hf with _ | ⟨h2, hf⟩
    rcases hf with _ | ⟨h3, hf⟩
    rcases hf with _ | ⟨h4, hf⟩
    rcases hf with _ | _
    rename_i l0 l1 l2 l3 l4
    have n0 : l0.length = preCount size 0 := Nat.cast_inj.mp (h0.2.2.1 (Int.ofNat_nonneg _))
    have n1 : l1.length = preCount size 1 := Nat.cast_inj.mp (h1.2.2.1 (Int.ofNat_nonneg _))
    have n2 : l2.length = preCount size 2 := Nat.cast_inj.mp (h2.2.2.1 (Int.ofNat_nonneg _))
    have n3 : l3.length = preCount size 3 := Nat.cast_inj.mp (h3.2.2.1 (Int.ofNat_nonneg _))
    have n4 : l4.length = preCount size 4 := Nat.cast_inj.mp (h4.2.2.1 (Int.ofNat_nonneg _))
    have hnpr : c.numbersPerRow = 5 := (congrArg CardData.numbersPerRow hg).symm
    have hnpc : c.numbersPerCol = (size + 1 + 5 - 1) / 5 :=
      (congrArg CardData.numbersPerCol hg).symm
    have hcrow : c.centerRow = (size + 1 + 5 - 1) / 5 / 2 :=
      (congrArg CardData.centerRow hg).symm
    have hccol : c.centerCol = 2 := (congrArg CardData.centerCol hg).symm
    have hgrid : c.grid =
        (List.range ((size + 1 + 5 - 1) / 5)).flatMap (fun row =>
          (List.range 5).map (fun col =>
            (((List.range 5).map (fun col2 =>
              buildColAux (([l0, l1, l2, l3, l4] : List (List Nat)).getD col2 [])
                ((size + 1 + 5 - 1) / 5 / 2) (col2 == 2) 0 0
                ((size + 1 + 5 - 1) / 5))).getD col []).getD row none)) :=
      (congrArg CardData.grid hg).symm
    set R : Nat := (size + 1 + 5 - 1) / 5 with hRdef
    have hR : R = size / 5 + 1 := by omega
    have hCR : R / 2 < R := by omega
    have hl2 : l2.length = size / 5 := by rw [n2, preCount_2]
    have hcol : ∀ col, col < 5 →
        (((List.range 5).map (fun col2 =>
          buildColAux (([l0, l1, l2, l3, l4] : List (List Nat)).getD col2 [])
            (R / 2) (col2 == 2) 0 0 R)).getD col []) =
        buildColAux (([l0, l1, l2, l3, l4] : List (List Nat)).getD col [])
          (R / 2) (col == 2) 0 0 R :=
      fun col h5 => getD_map_range 5 col [] _ h5
    have hcellc : ∀ (d : Option Nat) (r col : Nat), r < R → col < 5 →
        c.grid.getD (r * 5 + col) d =
        (buildColAux (([l0, l1, l2, l3, l4] : List (List Nat)).getD col [])
            (R / 2) (col == 2) 0 0 R).getD r none := by
      intro d r col hr h5
      rw [hgrid]
      rw [flat_grid_getD R _ d r col hr h5]
      rw [hcol col h5]
    have cell0 : ∀ (d : Option Nat) (r : Nat), r < R →
        c.grid.getD (r * 5 + 0) d = (buildColAux l0 (R / 2) false 0 0 R).getD r none :=
      fun d r hr => hcellc d r 0 hr (by norm_num)
    have cell1 : ∀ (d : Option Nat) (r : Nat), r < R →
        c.grid.getD (r * 5 + 1) d = (buildColAux l1 (R / 2) false 0 0 R).getD r none :=
      fun d r hr => hcellc d r 1 hr (by norm_num)
    have cell2 : ∀ (d : Option Nat) (r : Nat), r < R →
        c.grid.getD (r * 5 + 2) d = (buildColAux l2 (R / 2) true 0 0 R).getD r none :=
      fun d r hr => hcellc d r 2 hr (by norm_num)
    have cell3 : ∀ (d : Option Nat) (r : Nat), r < R →
        c.grid.getD (r * 5 + 3) d = (buildColAux l3 (R / 2) false 0 0 R).getD r none :=
      fun d r hr => hcellc d r 3 hr (by norm_num)
    have cell4 : ∀ (d : Option Nat) (r : Nat), r < R →
        c.grid.getD (r * 5 + 4) d = (buildColAux l4 (R / 2) false 0 0 R).getD r none :=
      fun d r hr => hcellc d r 4 hr (by norm_num)
    have colval_false : ∀ (l : List Nat) (r : Nat), r < R →
        (buildColAux l (R / 2) false 0 0 R).getD r none = l[r]? := by
      intro l r hr
      rw [buildColAux_false, getD_map_range R r none _ hr, Nat.zero_add]
    have colval_true : ∀ (r : Nat), r < R →
        (buildColAux l2 (R / 2) true 0 0 R).getD r none =
          (if r = R / 2 then none
           else l2[r - (if R / 2 < r then 1 else 0)]?) := by
      intro r hr
      rw [buildColAux_true, getD_map_range R r none _ hr]
      simp only [Nat.zero_add]
      by_cases heq : r = R / 2
      · rw [if_pos heq, if_pos heq]
      · rw [if_neg heq, if_neg heq]
        by_cases hlt : R / 2 < r
        · rw [if_pos ⟨Nat.zero_le _, hlt⟩, if_pos hlt]
        · rw [if_neg (fun h => hlt h.2), if_neg hlt]
    refine ⟨hnpr, by rw [hnpc]; omega, by rw [hcrow, hnpc], hccol, ?_, ?_, ?_⟩
    · rw [hgrid, hnpc]
      exact flat_grid_length R _
    · rw [hcrow, hccol]
      rw [cell2 (some 0) (R / 2) hCR]
      rw [colval_true (R / 2) hCR]
      rw [if_pos rfl]
    · constructor
      · intro hall2
        by_contra hmod
        have hl4 : l4.length = size / 5 := by
          rw [n4, preCount_4, if_neg (by omega)]
        have hc4 : c.grid.getD ((R - 1) * 5 + 4) none = none := by
          rw [cell4 none (R - 1) (by omega)]
          rw [colval_false l4 (R - 1) (by omega)]
          exact List.getElem?_eq_none (by omega)
        exact hall2 (R - 1) (by rw [hnpc]; omega) 4 (by norm_num)
          (fun hcon => absurd hcon.2 (by norm_num)) hc4
      · intro hmod r hr col h5 hnc hnone
        rw [hnpc] at hr
        have hl0 : l0.length = size / 5 + 1 := by
          rw [n0, preCount_0, if_pos (by omega)]
        have hl1 : l1.length = size / 5 + 1 := by
          rw [n1, preCount_1, if_pos (by omega)]
        have hl3 : l3.length = size / 5 + 1 := by
          rw [n3, preCount_3, if_pos (by omega)]
        have hl4 : l4.length = size / 5 + 1 := by
          rw [n4, preCount_4, if_pos (by omega)]
        interval_cases col
        · rw [cell0 none r hr, colval_false l0 r hr] at hnone
          have := List.getElem?_eq_none_iff.mp hnone
          omega
        · rw [cell1 none r hr, colval_false l1 r hr] at hnone
          have := List.getElem?_eq_none_iff.mp hnone
          omega
        · have hne : r ≠ R / 2 := by
            intro h
            exact hnc ⟨by rw [hcrow]; exact h, rfl⟩
          rw [cell2 none r hr, colval_true r hr, if_neg hne] at hnone
          have hlen := List.getElem?_eq_none_iff.mp hnone
          by_cases hlt : R / 2 < r
          · rw [if_pos hlt] at hlen
            omega
          · rw [if_neg hlt] at hlen
            omega
        · rw [cell3 none r hr, colval_false l3 r hr] at hnone
          have := List.getElem?_eq_none_iff.mp hnone
          omega
        · rw [cell4 none r hr, colval_false l4 r hr] at hnone
          have := List.getElem?_eq_none_iff.mp hnone
          omega

theorem grid_layout_spec_witness :
    cardDemo.numbersPerRow = 5 ∧
    cardDemo.numbersPerCol = (7 + 1 + 4) / 5 ∧
    cardDemo.centerRow = cardDemo.numbersPerCol / 2 ∧
    cardDemo.centerCol = 2 ∧
    cardDemo.grid.length = cardDemo.numbersPerCol * 5 ∧
    cardDemo.grid.getD (cardDemo.centerRow * 5 + cardDemo.centerCol) (some 0) = none ∧
    ((∀ r, r < cardDemo.numbersPerCol → ∀ col, col < 5 →
        ¬(r = cardDemo.centerRow ∧ col = 2) →
        cardDemo.grid.getD (r * 5 + col) none ≠ none) ↔ 7 % 5 = 4) :=
  grid_layout_spec demoStream 64 7 cardDemo (by norm_num) (by norm_num) (by rfl)

def cardDemo20 : CardData :=
  ⟨[1, 2, 3, 4, 20, 21, 22, 23, 39, 40, 41, 42, 46, 58, 59, 60, 62, 63, 64, 65],
   [some 1, some 20, some 39, some 46, some 62,
    some 2, some 21, some 40, some 58, some 63,
    some 3, some 22, none, some 59, some 64,
    some 4, some 23, some 41, some 60, some 65,
    none, none, some 42, none, none],
   5, 5, 2, 2⟩

/-- C3 counterexample to the claim as stated: for the valid size 20 the
generated grid does not contain exactly one free (null) cell — besides the
free cell at `(centerRow, centerCol) = (2, 2)` (grid index 12), the cell at
row 4, column 0 (grid index 20) is also null. -/
theorem grid_single_free_cell_cex :
    generateBingoCard demoStream 64 20 = some cardDemo20 ∧
    cardDemo20.centerRow = 2 ∧ cardDemo20.centerCol = 2 ∧
    cardDemo20.grid.getD (2 * 5 + 2) (some 0) = none ∧
    cardDemo20.grid.getD (4 * 5 + 0) (some 0) = none ∧
    (4 * 5 + 0 : Nat) ≠ 2 * 5 + 2 :=
  ⟨by rfl, rfl, rfl, rfl, rfl, by norm_num⟩

end Bingo
